import Mathlib

/-!
Verification of the concurrency core of the elvish shell:
the history store wrapper (`pkg/edit/hist_store.go`) and the prompt
recomputation engine (`cli/prompt`, observed through its test suite).

Part 1 embeds `pkg/edit/hist_store.go`.  The wrapped backend
(`histutil.Store`, `histutil.NewHybridStore`, `store.Store`) is external
to the wrapper: it is modelled as a record of abstract operations, and
`NewHybridStore` is passed in as an explicit function parameter `mk`,
so every theorem quantifies over all possible backend behaviours.
-/

/-- Backend errors, kept abstract as plain messages (Go `error`). -/
abbrev Err := String

/-- A handle to the underlying persistent database (Go `store.Store`),
opaque to the wrapper. -/
abbrev DB := Nat

/-- An opaque handle for the iterator returned by `Cursor`
(Go `histutil.Cursor`). -/
abbrev CursorHandle := Nat

/-- A history record (Go `store.Cmd`): a sequence id assigned by the
backend and the command text.  `hist_store.go` treats it as an opaque
payload. -/
structure Cmd where
  seq : Int
  text : String
deriving DecidableEq, Repr

/-- The wrapped in-memory hybrid view (Go `histutil.Store`): a record of
the three delegated operations.  Their behaviour is abstract; the
wrapper only forwards to them. -/
structure HistutilStore where
  addCmd : Cmd → Int × Option Err
  allCmds : List Cmd × Option Err
  cursor : String → CursorHandle

/-- State of the wrapper `histStore` from `pkg/edit/hist_store.go`:
the database handle `db` and the cached hybrid view `hs`
(the mutex is modelled separately, by the interleaving machine below). -/
structure HistStoreState where
  db : DB
  hs : HistutilStore

/-- Go `newHistStore(db)`: calls `histutil.NewHybridStore(db)` (the
parameter `mk`) and returns the constructed store together with the
error.  The store is built and returned even when `mk` reports an
error — the Go code returns `&histStore{db: db, hs: hs}, err`
unconditionally, so the caller always receives a (non-nil) store. -/
def newHistStore (mk : DB → HistutilStore × Option Err) (db : DB) :
    HistStoreState × Option Err :=
  let r := mk db
  ({ db := db, hs := r.1 }, r.2)

/-- Go `(*histStore).AddCmd`: delegates to `s.hs.AddCmd(cmd)` under the
mutex; the wrapper state itself is unchanged. -/
def HistStoreState.AddCmd (s : HistStoreState) (cmd : Cmd) :
    (Int × Option Err) × HistStoreState :=
  (s.hs.addCmd cmd, s)

/-- Go `(*histStore).AllCmds`: delegates to `s.hs.AllCmds()` under the
mutex; the wrapper state itself is unchanged. -/
def HistStoreState.AllCmds (s : HistStoreState) :
    (List Cmd × Option Err) × HistStoreState :=
  (s.hs.allCmds, s)

/-- Go `(*histStore).Cursor`: delegates to `s.hs.Cursor(prefix)` under
the mutex; the wrapper state itself is unchanged. -/
def HistStoreState.Cursor (s : HistStoreState) (pfx : String) :
    CursorHandle × HistStoreState :=
  (s.hs.cursor pfx, s)

/-- Go `(*histStore).FastForward`: under the mutex, calls
`histutil.NewHybridStore(s.db)` (the parameter `mk`), assigns the
returned handle to `s.hs` unconditionally — also when `mk` reports an
error — and returns the error. -/
def HistStoreState.FastForward (mk : DB → HistutilStore × Option Err)
    (s : HistStoreState) : HistStoreState × Option Err :=
  let r := mk s.db
  ({ s with hs := r.1 }, r.2)

/-! Concrete backend values used for counterexamples and witnesses. -/

/-- A healthy hybrid view whose `AllCmds` succeeds with an empty list. -/
def hsHealthy : HistutilStore :=
  { addCmd := fun c => (c.seq, none)
    allCmds := ([], none)
    cursor := fun _ => 0 }

/-- A degraded hybrid view, as a failed `NewHybridStore` might return:
its `AllCmds` reports the construction error. -/
def hsDegraded : HistutilStore :=
  { addCmd := fun _ => (-1, some "db error")
    allCmds := ([], some "db error")
    cursor := fun _ => 0 }

/-- A backend constructor that fails: it returns the degraded view
together with an error. -/
def mkFailing : DB → HistutilStore × Option Err :=
  fun _ => (hsDegraded, some "db error")

/-- The wrapper state before the failing `FastForward`: it caches the
healthy view. -/
def sHealthy : HistStoreState :=
  { db := 0, hs := hsHealthy }

/-!
Interleaving machine for the history store's mutex discipline.

Each of the four operations in `hist_store.go` has the shape
`s.m.Lock(); defer s.m.Unlock(); <one delegated call>`.  A thread is
modelled by a phase: waiting to acquire the mutex, inside the critical
section, or done (carrying the result of its delegated call).  The step
relation is Go `sync.Mutex` semantics: `acquire` succeeds only when no
thread owns the mutex; the owner then performs its single delegated
call and releases.
-/

/-- Which of the four `histStore` operations a thread is executing. -/
inductive HistOp where
  | add (c : Cmd)
  | all
  | cur (pfx : String)
  | ff
deriving DecidableEq, Repr

/-- The value a thread's operation returns to its caller. -/
inductive OpResult where
  | addR (r : Int × Option Err)
  | allR (r : List Cmd × Option Err)
  | curR (r : CursorHandle)
  | ffR (r : Option Err)

/-- Phase of one thread: before the `Lock()`, holding the mutex, or
returned (with its result). -/
inductive Phase where
  | waiting
  | inCS
  | done (r : OpResult)

/-- Execute the body of one operation (the single delegated call that
the Go code performs between `Lock` and `Unlock`), in terms of the
operation embeddings above. -/
def execOp (mk : DB → HistutilStore × Option Err) :
    HistOp → HistStoreState → OpResult × HistStoreState
  | .add c, s => (.addR (s.AddCmd c).1, (s.AddCmd c).2)
  | .all, s => (.allR (s.AllCmds).1, (s.AllCmds).2)
  | .cur p, s => (.curR (s.Cursor p).1, (s.Cursor p).2)
  | .ff, s =>
      let r := s.FastForward mk
      (.ffR r.2, r.1)

/-- Pointwise update of a thread-phase map. -/
def setPhase (ph : Nat → Phase) (t : Nat) (p : Phase) : Nat → Phase :=
  fun u => if u = t then p else ph u

/-- Global state of the machine: the mutex owner (Go `s.m`), each
thread's phase, and the shared wrapper state guarded by the mutex. -/
structure MState where
  lockOwner : Option Nat
  phases : Nat → Phase
  store : HistStoreState

/-- One interleaving step: a waiting thread acquires the free mutex, or
the owner performs its delegated call and releases (Go `defer Unlock`). -/
inductive MStep (mk : DB → HistutilStore × Option Err) (ops : Nat → HistOp) :
    MState → MState → Prop where
  | acquire (t : Nat) (s : MState) :
      s.lockOwner = none → s.phases t = .waiting →
      MStep mk ops s ⟨some t, setPhase s.phases t .inCS, s.store⟩
  | callAndRelease (t : Nat) (s : MState) :
      s.lockOwner = some t → s.phases t = .inCS →
      MStep mk ops s
        ⟨none,
         setPhase s.phases t (.done (execOp mk (ops t) s.store).1),
         (execOp mk (ops t) s.store).2⟩

/-- Initial machine state: mutex free, all threads waiting. -/
def initM (st : HistStoreState) : MState :=
  ⟨none, fun _ => .waiting, st⟩

/-- A machine state reachable from the initial state. -/
def MReach (mk : DB → HistutilStore × Option Err) (ops : Nat → HistOp)
    (st : HistStoreState) (s : MState) : Prop :=
  Relation.ReflTransGen (MStep mk ops) (initM st) s

/-!
Part 2: the prompt engine (`cli/prompt`).  Its implementation is not
among the sources here — only its test suite `cli/prompt/prompt_test.go`
is — so the engine is modelled from the spec and checked against the
behaviour the tests pin down.

Styled text (`styled.Text`) is an ordered sequence of segments, each a
string with a list of display attributes; `styled.Plain(s)` is one
attribute-free segment and `styled.MakeText(s, "inverse")` one segment
with the single attribute `"inverse"`.
-/

/-- One segment of styled text: its text and its display attributes. -/
structure Segment where
  text : String
  attrs : List String
deriving DecidableEq, Repr

/-- Modelled from the spec: Styled Content, "an immutable,
order-preserving sequence of text segments each carrying display
attributes" (Go `styled.Text`). -/
abbrev StyledText := List Segment

/-- Go `styled.Plain(s)`: a single attribute-free segment. -/
def plain (s : String) : StyledText := [⟨s, []⟩]

/-- Add one display attribute to every segment of a styled text. -/
def addAttr (t : StyledText) (a : String) : StyledText :=
  t.map fun seg => ⟨seg.text, seg.attrs ++ [a]⟩

/-- Modelled from the spec: the "stale" transformation "applies a single
additional attribute (`inverse`) uniformly across all segments of the
previous content without altering the underlying text" (spec §6); the
`styled` package is not among the sources. -/
def staleTransform (t : StyledText) : StyledText :=
  addAttr t "inverse"

/-- The text of a styled text with all attributes erased, segments
concatenated in order. -/
def concatText (t : StyledText) : String :=
  t.foldr (fun seg acc => seg.text ++ acc) ""

/-- Modelled from the spec: the prompt engine's configuration of
injected policies (spec §3).  `Compute` is indexed by the invocation
number so that stateful callbacks such as the test suite's
`autoIncPrompt` are expressible; `staleThreshold` is in abstract ticks,
`0` meaning staleness marking is disabled; `eagerness` is the integer
consulted by the trigger gate. -/
structure PromptConfig where
  compute : Option (Nat → StyledText)
  staleThreshold : Nat
  eagerness : Int

/-- Modelled from the spec: the default `Compute` "yields a fixed
placeholder every time" (spec §6); the placeholder observed by
`TestPrompt_DefaultCompute` is `"???> "`. -/
def defaultCompute : Nat → StyledText := fun _ => plain "???> "

/-- The effective compute callback: the configured one, or the default
placeholder when unset. -/
def computeOf (cfg : PromptConfig) : Nat → StyledText :=
  cfg.compute.getD defaultCompute

/-- Modelled from the spec: the engine's state (spec §3) — the current
Content (text plus derived stale flag), the `PendingFlag`, the number of
in-flight computations (`running`, intended to stay at most 1), the
`Generation` counter of computations started, and `LastContextSignal`,
the last observed working-directory identity. -/
structure PromptState where
  content : StyledText
  contentStale : Bool
  pending : Bool
  running : Nat
  generation : Nat
  lastSignal : Option String
deriving Repr

/-- Modelled from the spec: `New(config)` "constructs with an initial
Content representing unknown (a fixed placeholder string), not stale";
the test suite observes the placeholder `"???> "`. -/
def Prompt.new (_ : PromptConfig) : PromptState :=
  { content := plain "???> "
    contentStale := false
    pending := false
    running := 0
    generation := 0
    lastSignal := none }

/-- `Get()`: returns the most recently published Content. -/
def Prompt.get (s : PromptState) : StyledText := s.content

/-- Modelled from the spec: `requiredLevel = 5` if the context signal
changed, `10` otherwise (spec §4.1). -/
def requiredLevel (changed : Bool) : Int :=
  if changed then 5 else 10

/-- Modelled from the spec: whether the context signal (working
directory) differs from the last evaluated trigger; "the very first
evaluation is always treated as changed since there is no prior
signal". -/
def signalChanged (last : Option String) (cur : String) : Bool :=
  match last with
  | none => true
  | some s => decide (s ≠ cur)

/-- Start one computation: one more in flight, `Generation` recorded
one higher (spec §4.1, computation protocol step 1). -/
def startComputation (s : PromptState) : PromptState :=
  { s with running := s.running + 1, generation := s.generation + 1 }

/-- Modelled from the spec: `Trigger(force)` (spec §4.1).  If a
computation is running, coalesce: set `PendingFlag` and return.  If not,
a forced trigger starts a computation unconditionally; an unforced one
evaluates the eagerness gate against `requiredLevel` and updates
`LastContextSignal` on every evaluation regardless of outcome.  `cur` is
the current context signal (working-directory identity).  The returned
boolean reports whether a computation was started. -/
def trigger (cfg : PromptConfig) (cur : String) (force : Bool)
    (s : PromptState) : PromptState × Bool :=
  if s.running ≠ 0 then
    ({ s with pending := true }, false)
  else if force then
    (startComputation s, true)
  else
    let changed := signalChanged s.lastSignal cur
    let s1 := { s with lastSignal := some cur }
    if requiredLevel changed ≤ cfg.eagerness then
      (startComputation s1, true)
    else
      (s1, false)

/-- Modelled from the spec: completion of an in-flight computation with
result `r` (spec §4.1, steps 4–5): publish `r` as non-stale Content; if
`PendingFlag` was set during execution, clear it and immediately start a
new computation.  Returns the new state and the list of values emitted
on `LateUpdates`.  When no computation is running the event cannot
occur and is a no-op. -/
def finish (r : StyledText) (s : PromptState) : PromptState × List StyledText :=
  if s.running = 0 then (s, [])
  else
    let s1 := { s with running := s.running - 1
                       content := r
                       contentStale := false }
    if s1.pending then
      (startComputation { s1 with pending := false }, [r])
    else
      (s1, [r])

/-- One external event of the prompt engine: a `Trigger(force)` call in
context-signal `cur`, or the completion of the in-flight computation. -/
inductive PEvent where
  | trig (force : Bool) (cur : String)
  | fin (r : StyledText)

/-- Apply one event to the engine state. -/
def pstep (cfg : PromptConfig) (s : PromptState) : PEvent → PromptState
  | .trig f cur => (trigger cfg cur f s).1
  | .fin r => (finish r s).1

/-- Run the engine over a sequence of events. -/
def prun (cfg : PromptConfig) (s : PromptState) (evs : List PEvent) :
    PromptState :=
  evs.foldl (pstep cfg) s

/-- Modelled from the spec: the publish timeline of one computation
invocation, in abstract ticks (spec §4.1, step 3).  `timer` is the
one-shot stale timer still to run down (`none` when disabled or already
fired), `left` the ticks until `Compute` returns, `prev` the Content
held when the invocation started, `r` the computed result.  If the
timer reaches zero while the computation still runs, the previous
content is published with the `inverse` attribute (stale-marked) and
the timer is gone (it fires once); when the computation finishes, the
fresh result is published and any pending timer is disarmed. -/
def runTicks (prev r : StyledText) : Option Nat → Nat → List StyledText
  | _, 0 => [r]
  | none, n + 1 => runTicks prev r none n
  | some 0, n + 1 => staleTransform prev :: runTicks prev r none n
  | some (t + 1), n + 1 => runTicks prev r (some t) n

/-- Modelled from the spec: the publishes of one invocation whose
`Compute` takes `duration` ticks, under stale threshold `threshold`
(`0` = staleness disabled). -/
def invocationRun (threshold duration : Nat) (prev r : StyledText) :
    List StyledText :=
  runTicks prev r (if threshold = 0 then none else some threshold) duration

/-- A backend constructor that succeeds with the healthy view. -/
def mkHealthy : DB → HistutilStore × Option Err :=
  fun _ => (hsHealthy, none)

/-- All threads execute `AddCmd` of one fixed record (used to
instantiate the machine at concrete inputs). -/
def opsAdd : Nat → HistOp :=
  fun _ => .add ⟨0, "ls"⟩

/-- The machine state after thread 0 acquires the free mutex from the
initial state over `sHealthy`. -/
def mw : MState :=
  ⟨some 0, setPhase (initM sHealthy).phases 0 .inCS, (initM sHealthy).store⟩

/-- The machine state after thread 0, holding the mutex in `mw`,
performs its delegated call and releases. -/
def mwAfter : MState :=
  ⟨none,
   setPhase mw.phases 0 (.done (execOp mkHealthy (opsAdd 0) mw.store).1),
   (execOp mkHealthy (opsAdd 0) mw.store).2⟩

/-- A sequence of `Trigger` calls as engine events. -/
def trigs (args : List (Bool × String)) : List PEvent :=
  args.map fun x => .trig x.1 x.2

/-- A configuration with no compute callback, staleness disabled, and
the given eagerness (used to instantiate the engine at concrete inputs). -/
def cfgE (e : Int) : PromptConfig :=
  { compute := none, staleThreshold := 0, eagerness := e }

/-- An engine state with one computation in flight. -/
def sOneRunning : PromptState :=
  startComputation (Prompt.new (cfgE 0))

/-!
Theorems.  First the history store (claims about `hist_store.go`), then
the prompt engine.
-/

/-- C1 counterexample: the claim that a failing `FastForward` leaves the
previous cached hybrid view in place is false on the code.  With the
healthy cache in place and a backend constructor that fails, the
`FastForward` of `hist_store.go` still swaps in the handle the failed
construction returned: `AllCmds` afterwards serves the new (degraded)
view, not the previous one, while the error is returned. -/
theorem fastForward_error_cache_replaced_cex :
    (mkFailing sHealthy.db).2 = some "db error" ∧
    (sHealthy.FastForward mkFailing).2 = some "db error" ∧
    (sHealthy.FastForward mkFailing).1.hs.allCmds ≠ sHealthy.hs.allCmds := by
  refine ⟨rfl, rfl, ?_⟩
  simp [HistStoreState.FastForward, mkFailing, sHealthy, hsDegraded, hsHealthy]

/-- C1 (amended): if the backend reports an error during `FastForward`,
the error is returned to the caller, but the cached hybrid view is
nonetheless replaced by the handle the failed construction returned
(`s.hs = hs` is executed unconditionally in `hist_store.go`), so
`AllCmds`/`Cursor` thereafter serve the new handle; the database handle
is unchanged. -/
theorem fastForward_error_returns_error_swaps_handle
    (mk : DB → HistutilStore × Option Err) (s : HistStoreState) (e : Err)
    (h : (mk s.db).2 = some e) :
    (s.FastForward mk).2 = some e ∧
    (s.FastForward mk).1.hs = (mk s.db).1 ∧
    (s.FastForward mk).1.db = s.db := by
  simp [HistStoreState.FastForward, h]

/-- Witness for the amended C1 at the concrete failing backend. -/
theorem fastForward_error_returns_error_swaps_handle_witness :
    (mkFailing sHealthy.db).2 = some "db error" ∧
    (sHealthy.FastForward mkFailing).2 = some "db error" :=
  ⟨rfl,
   (fastForward_error_returns_error_swaps_handle mkFailing sHealthy
     "db error" rfl).1⟩

/-- C10: `newHistStore(db)` returns the constructed store even when the
hybrid-store construction fails: the returned store carries the given
database handle and whatever handle the construction returned, alongside
the error, so a caller that ignores the error still receives a store
object (the Go code returns `&histStore{...}` unconditionally, never
nil). -/
theorem newHistStore_returns_store_on_error
    (mk : DB → HistutilStore × Option Err) (db : DB) (e : Err)
    (h : (mk db).2 = some e) :
    (newHistStore mk db).2 = some e ∧
    (newHistStore mk db).1.db = db ∧
    (newHistStore mk db).1.hs = (mk db).1 := by
  simp [newHistStore, h]

/-- Witness for C10 at the concrete failing backend. -/
theorem newHistStore_returns_store_on_error_witness :
    (mkFailing 0).2 = some "db error" ∧
    (newHistStore mkFailing 0).1.db = 0 :=
  ⟨rfl, (newHistStore_returns_store_on_error mkFailing 0 "db error" rfl).2.1⟩

/-- Invariant of the mutex machine: a thread inside its critical section
is the mutex owner. -/
theorem mreach_inCS_owner (mk : DB → HistutilStore × Option Err)
    (ops : Nat → HistOp) (st : HistStoreState) (s : MState)
    (h : MReach mk ops st s) :
    ∀ t, s.phases t = .inCS → s.lockOwner = some t := by
  induction h with
  | refl =>
      intro t ht
      exact absurd ht (by simp [initM])
  | tail _ hstep ih =>
      cases hstep with
      | acquire t' b hnone hw =>
          intro t ht
          simp only [setPhase] at ht
          by_cases htt : t = t'
          · simp [htt]
          · simp only [if_neg htt] at ht
            exact absurd (ih t ht) (by simp [hnone])
      | callAndRelease t' b hown hcs =>
          intro t ht
          simp only [setPhase] at ht
          by_cases htt : t = t'
          · simp only [if_pos htt] at ht
            exact absurd ht (by simp)
          · simp only [if_neg htt] at ht
            have := ih t ht
            rw [hown] at this
            exact absurd (Option.some.inj this) (fun hh => htt hh.symm)

/-- C5: mutual exclusion for the history store.  In every state
reachable by interleaving `AddCmd`/`AllCmds`/`Cursor`/`FastForward`
threads under the mutex of `hist_store.go`, at most one thread is inside
the critical section that guards the cached handle and every delegated
backend call, so all store operations are totally ordered. -/
theorem histStore_mutual_exclusion (mk : DB → HistutilStore × Option Err)
    (ops : Nat → HistOp) (st : HistStoreState) (s : MState)
    (h : MReach mk ops st s) (t u : Nat)
    (ht : s.phases t = .inCS) (hu : s.phases u = .inCS) : t = u := by
  have h1 := mreach_inCS_owner mk ops st s h t ht
  have h2 := mreach_inCS_owner mk ops st s h u hu
  rw [h1] at h2
  exact Option.some.inj h2

/-- Witness for C5: the state in which thread 0 has acquired the mutex
is reachable, thread 0 is in the critical section there, and the theorem
applies. -/
theorem histStore_mutual_exclusion_witness :
    MReach mkHealthy opsAdd sHealthy mw ∧ mw.phases 0 = .inCS ∧ 0 = 0 := by
  have hr : MReach mkHealthy opsAdd sHealthy mw :=
    Relation.ReflTransGen.single (MStep.acquire 0 (initM sHealthy) rfl rfl)
  exact ⟨hr, rfl,
    histStore_mutual_exclusion mkHealthy opsAdd sHealthy mw hr 0 0 rfl rfl⟩

/-- C9: `AddCmd` and `AllCmds` return exactly the value-and-error pair
produced by the single delegated call to the wrapped backend, with no
retry and no modification, and atomically: any machine step taken while
thread `t` holds the mutex is `t`'s own delegated call, it records
precisely the backend's pair as `t`'s result, and it leaves the shared
wrapper state unchanged (no partial effect another operation could
observe). -/
theorem histStore_delegates_verbatim (mk : DB → HistutilStore × Option Err)
    (ops : Nat → HistOp) (s s' : MState) (t : Nat)
    (hstep : MStep mk ops s s') (hown : s.lockOwner = some t) :
    (∀ c, ops t = .add c →
      s'.phases t = .done (.addR (s.store.hs.addCmd c)) ∧
      s'.store = s.store) ∧
    (ops t = .all →
      s'.phases t = .done (.allR s.store.hs.allCmds) ∧
      s'.store = s.store) := by
  cases hstep with
  | acquire t' b hnone hw =>
      rw [hown] at hnone
      exact absurd hnone (by simp)
  | callAndRelease t' b hown' hcs =>
      rw [hown] at hown'
      obtain rfl : t = t' := Option.some.inj hown'
      constructor
      · intro c hc
        constructor
        · simp [setPhase, hc, execOp, HistStoreState.AddCmd]
        · simp [hc, execOp, HistStoreState.AddCmd]
      · intro hc
        constructor
        · simp [setPhase, hc, execOp, HistStoreState.AllCmds]
        · simp [hc, execOp, HistStoreState.AllCmds]

/-- Witness for C9: the delegated call of thread 0 in the concrete
machine records exactly the backend pair and leaves the store as it
was. -/
theorem histStore_delegates_verbatim_witness :
    mw.lockOwner = some 0 ∧ opsAdd 0 = .add ⟨0, "ls"⟩ ∧
    mwAfter.phases 0 = .done (.addR (mw.store.hs.addCmd ⟨0, "ls"⟩)) ∧
    mwAfter.store = mw.store := by
  have hstep : MStep mkHealthy opsAdd mw mwAfter :=
    MStep.callAndRelease 0 mw rfl rfl
  have h := (histStore_delegates_verbatim mkHealthy opsAdd mw mwAfter 0
    hstep rfl).1 ⟨0, "ls"⟩ rfl
  exact ⟨rfl, rfl, h.1, h.2⟩

/-- C2: the eagerness gate.  For a `Trigger` evaluated while no
computation is running, an unforced trigger starts a computation iff
`Eagerness() >= requiredLevel`, where `requiredLevel` is 5 when the
working-directory signal changed (the very first evaluation always
counts as changed, since there is no prior signal) and 10 when it is
unchanged; a forced trigger always starts one. -/
theorem prompt_eagerness_gate (cfg : PromptConfig) (cur : String)
    (s : PromptState) (hr : s.running = 0) :
    ((trigger cfg cur false s).2 = true ↔
      requiredLevel (signalChanged s.lastSignal cur) ≤ cfg.eagerness) ∧
    (trigger cfg cur true s).2 = true ∧
    (s.lastSignal = none → signalChanged s.lastSignal cur = true) ∧
    requiredLevel true = 5 ∧ requiredLevel false = 10 := by
  refine ⟨?_, ?_, ?_, rfl, rfl⟩
  · by_cases hg : requiredLevel (signalChanged s.lastSignal cur) ≤ cfg.eagerness
    · simp [trigger, hr, hg]
    · simp [trigger, hr, hg]
  · simp [trigger, hr]
  · intro h
    simp [signalChanged, h]

/-- Witness for C2: with eagerness 5 and no prior signal, the first
unforced trigger starts a computation. -/
theorem prompt_eagerness_gate_witness :
    (Prompt.new (cfgE 5)).running = 0 ∧
    (trigger (cfgE 5) "dir" false (Prompt.new (cfgE 5))).2 = true :=
  ⟨rfl,
   (prompt_eagerness_gate (cfgE 5) "dir" (Prompt.new (cfgE 5)) rfl).1.mpr
     (by decide)⟩

/-- Any nonempty burst of `Trigger` calls arriving while a computation
is running only sets `PendingFlag`: no other field of the engine state
changes, however many calls arrive. -/
theorem prun_trigs_pending (cfg : PromptConfig) (args : List (Bool × String)) :
    ∀ s : PromptState, s.running ≠ 0 → args ≠ [] →
    prun cfg s (trigs args) = { s with pending := true } := by
  induction args with
  | nil =>
      intro s _ hne
      exact absurd rfl hne
  | cons a rest ih =>
      intro s hr _
      have h1 : prun cfg s (trigs (a :: rest))
          = prun cfg { s with pending := true } (trigs rest) := by
        simp [trigs, prun, pstep, trigger, hr]
      rw [h1]
      rcases Decidable.em (rest = []) with hrest | hrest
      · subst hrest
        rfl
      · exact ih { s with pending := true } hr hrest

/-- One engine event preserves the bound of at most one in-flight
computation. -/
theorem pstep_running_le_one (cfg : PromptConfig) (s : PromptState)
    (h : s.running ≤ 1) (e : PEvent) : (pstep cfg s e).running ≤ 1 := by
  cases e with
  | trig f cur =>
      by_cases h0 : s.running ≠ 0
      · simp only [pstep, trigger, if_pos h0]
        exact h
      · simp only [ne_eq, not_not] at h0
        cases f with
        | true => simp [pstep, trigger, h0, startComputation]
        | false =>
            by_cases hg : requiredLevel (signalChanged s.lastSignal cur) ≤
                cfg.eagerness
            · simp [pstep, trigger, h0, hg, startComputation]
            · simp [pstep, trigger, h0, hg]
  | fin r =>
      by_cases h0 : s.running = 0
      · simp [pstep, finish, h0, h]
      · by_cases hp : s.pending
        · simp only [pstep, finish, if_neg h0, hp, ite_true, startComputation]
          omega
        · simp only [pstep, finish, if_neg h0, hp, Bool.false_eq_true,
            ite_false]
          omega

/-- At most one computation is ever in flight along any event sequence. -/
theorem prun_running_le_one (cfg : PromptConfig) (evs : List PEvent) :
    ∀ s : PromptState, s.running ≤ 1 → (prun cfg s evs).running ≤ 1 := by
  induction evs with
  | nil => intro s h; exact h
  | cons e rest ih =>
      intro s h
      exact ih (pstep cfg s e) (pstep_running_le_one cfg s h e)

/-- C3: coalescing and at-most-one-in-flight.  If `Trigger` is called
any number k >= 1 of times while a computation is running, only the
`PendingFlag` is set (no computation starts: `Generation` is unchanged);
when the running computation finishes, exactly one further computation
starts (`Generation` rises by exactly one and the flag clears), and a
second completion with no further trigger starts none.  Moreover, along
every event sequence from a fresh engine, at most one computation is in
flight, so no two `Compute` invocations ever run concurrently. -/
theorem prompt_coalescing_and_exclusive (cfg : PromptConfig)
    (s : PromptState) (hr : s.running = 1)
    (args : List (Bool × String)) (hne : args ≠ [])
    (r1 r2 : StyledText) :
    (prun cfg s (trigs args)).pending = true ∧
    (prun cfg s (trigs args)).generation = s.generation ∧
    (prun cfg s (trigs args)).running = 1 ∧
    (finish r1 (prun cfg s (trigs args))).1.generation = s.generation + 1 ∧
    (finish r1 (prun cfg s (trigs args))).1.pending = false ∧
    (finish r1 (prun cfg s (trigs args))).1.running = 1 ∧
    (finish r2 (finish r1 (prun cfg s (trigs args))).1).1.running = 0 ∧
    (finish r2 (finish r1 (prun cfg s (trigs args))).1).1.generation
      = s.generation + 1 ∧
    (∀ evs, (prun cfg (Prompt.new cfg) evs).running ≤ 1) := by
  have hr0 : s.running ≠ 0 := by rw [hr]; exact one_ne_zero
  have hp : prun cfg s (trigs args) = { s with pending := true } :=
    prun_trigs_pending cfg args s hr0 hne
  rw [hp]
  have h1 : (finish r1 { s with pending := true }).1
      = startComputation
          { s with pending := false, running := 0, content := r1,
                   contentStale := false } := by
    simp [finish, hr]
  rw [h1]
  have h2 : (finish r2 (startComputation
      { s with pending := false, running := 0, content := r1,
               contentStale := false })).1
      = { s with pending := false, running := 0, content := r2,
                 contentStale := false, generation := s.generation + 1 } := by
    simp [finish, startComputation]
  rw [h2]
  refine ⟨rfl, rfl, hr, rfl, rfl, rfl, rfl, rfl, ?_⟩
  intro evs
  exact prun_running_le_one cfg evs (Prompt.new cfg) (by simp [Prompt.new])

/-- Witness for C3: with one computation in flight, a single unforced
trigger sets the pending flag and does not start a computation. -/
theorem prompt_coalescing_and_exclusive_witness :
    sOneRunning.running = 1 ∧ ([(false, "d")] : List (Bool × String)) ≠ [] ∧
    (prun (cfgE 0) sOneRunning (trigs [(false, "d")])).pending = true ∧
    (prun (cfgE 0) sOneRunning (trigs [(false, "d")])).generation
      = sOneRunning.generation := by
  have h := prompt_coalescing_and_exclusive (cfgE 0) sOneRunning rfl
    [(false, "d")] (by simp) (plain "1> ") (plain "2> ")
  exact ⟨rfl, by simp, h.1, h.2.1⟩

/-- With the stale timer disabled (or already fired), an invocation
publishes only its fresh result. -/
theorem runTicks_timer_off (prev r : StyledText) :
    ∀ n, runTicks prev r none n = [r] := by
  intro n
  induction n with
  | zero => rfl
  | succ n ih => simpa [runTicks] using ih

/-- If the computation finishes no later than the timer, only the fresh
result is published. -/
theorem runTicks_timer_slow (prev r : StyledText) :
    ∀ n t, n ≤ t → runTicks prev r (some t) n = [r] := by
  intro n
  induction n with
  | zero => intro t _; simp [runTicks]
  | succ n ih =>
      intro t h
      match t, h with
      | t + 1, h =>
          simpa [runTicks] using ih t (Nat.succ_le_succ_iff.mp h)

/-- If the timer runs out strictly before the computation finishes,
exactly one stale-marked publish precedes the fresh one. -/
theorem runTicks_timer_fires (prev r : StyledText) :
    ∀ n t, t < n →
    runTicks prev r (some t) n = [staleTransform prev, r] := by
  intro n
  induction n with
  | zero => intro t h; exact absurd h (Nat.not_lt_zero t)
  | succ n ih =>
      intro t h
      cases t with
      | zero => simp [runTicks, runTicks_timer_off]
      | succ t =>
          simpa [runTicks] using ih t (Nat.succ_lt_succ_iff.mp h)

/-- C4: staleness ordering for one computation invocation under a
positive stale threshold.  If `Compute` takes longer than the
threshold, the invocation's publish sequence is exactly one
stale-marked publish — the previous content with the `inverse`
attribute — followed by the fresh publish of the result; if `Compute`
finishes within the threshold, no stale publish occurs and only the
fresh result is published. -/
theorem prompt_staleness_ordering (threshold duration : Nat)
    (prev r : StyledText) (hpos : 0 < threshold) :
    (threshold < duration →
      invocationRun threshold duration prev r = [staleTransform prev, r]) ∧
    (duration ≤ threshold →
      invocationRun threshold duration prev r = [r]) := by
  have hne : threshold ≠ 0 := Nat.pos_iff_ne_zero.mp hpos
  constructor
  · intro h
    simp only [invocationRun, if_neg hne]
    exact runTicks_timer_fires prev r duration threshold h
  · intro h
    simp only [invocationRun, if_neg hne]
    exact runTicks_timer_slow prev r duration threshold h

/-- Witness for C4: threshold 10 ticks, computations of 15 and 5 ticks,
echoing the `TestPrompt_StalePrompt` scenario. -/
theorem prompt_staleness_ordering_witness :
    0 < 10 ∧
    invocationRun 10 15 (plain "???> ") (plain "1> ")
      = [staleTransform (plain "???> "), plain "1> "] ∧
    invocationRun 10 5 (plain "???> ") (plain "1> ") = [plain "1> "] :=
  ⟨Nat.succ_pos 9,
   (prompt_staleness_ordering 10 15 (plain "???> ") (plain "1> ")
     (by omega)).1 (by omega),
   (prompt_staleness_ordering 10 5 (plain "???> ") (plain "1> ")
     (by omega)).2 (by omega)⟩

/-- C6: the stale transformation adds the single attribute `inverse`
uniformly to every segment and alters no text: segment `i` of the
transformed content is segment `i` of the original with `inverse`
appended to its attributes, and the concatenated text is unchanged. -/
theorem stale_adds_inverse_uniformly (t : StyledText) (i : Nat) :
    (staleTransform t)[i]? =
      (t[i]?).map (fun seg => ⟨seg.text, seg.attrs ++ ["inverse"]⟩) ∧
    concatText (staleTransform t) = concatText t := by
  constructor
  · simp [staleTransform, addAttr]
  · induction t with
    | nil => rfl
    | cons seg rest ih =>
        simp only [staleTransform, addAttr, List.map, concatText,
          List.foldr] at ih ⊢
        rw [ih]

/-- C7: `New(config)` yields the fixed "unknown" placeholder `"???> "`
as initial content, not stale, and when `Compute` is unset the default
compute yields that same placeholder on every invocation. -/
theorem prompt_new_initial_and_default (cfg : PromptConfig) (n : Nat) :
    (Prompt.new cfg).content = plain "???> " ∧
    (Prompt.new cfg).contentStale = false ∧
    (cfg.compute = none → computeOf cfg n = plain "???> ") := by
  refine ⟨rfl, rfl, ?_⟩
  intro h
  simp [computeOf, h, defaultCompute]

/-- Witness for C7 at a configuration with `Compute` unset. -/
theorem prompt_new_initial_and_default_witness :
    (cfgE 5).compute = none ∧ computeOf (cfgE 5) 0 = plain "???> " :=
  ⟨rfl, (prompt_new_initial_and_default (cfgE 5) 0).2.2 rfl⟩

/-- C8: a gated-off unforced trigger is a no-op apart from
`LastContextSignal`: no computation starts, the resulting state is the
old state with only `LastContextSignal` set to the current signal (so
content, stale flag, pending flag, running count and generation are all
unchanged, and nothing will be emitted on `LateUpdates` for this
trigger), and `Get` returns the same content before and after. -/
theorem prompt_gated_trigger_noop (cfg : PromptConfig) (cur : String)
    (s : PromptState) (hr : s.running = 0)
    (hg : ¬ requiredLevel (signalChanged s.lastSignal cur) ≤ cfg.eagerness) :
    (trigger cfg cur false s).2 = false ∧
    (trigger cfg cur false s).1 = { s with lastSignal := some cur } ∧
    Prompt.get (trigger cfg cur false s).1 = Prompt.get s ∧
    (trigger cfg cur false s).1.generation = s.generation ∧
    (trigger cfg cur false s).1.pending = s.pending := by
  have ht : trigger cfg cur false s = ({ s with lastSignal := some cur }, false) := by
    simp [trigger, hr, hg]
  rw [ht]
  exact ⟨rfl, rfl, rfl, rfl, rfl⟩

/-- Witness for C8: with eagerness 0 and no computation running, an
unforced trigger starts nothing. -/
theorem prompt_gated_trigger_noop_witness :
    (Prompt.new (cfgE 0)).running = 0 ∧
    ¬ requiredLevel (signalChanged (Prompt.new (cfgE 0)).lastSignal "d") ≤
        (cfgE 0).eagerness ∧
    (trigger (cfgE 0) "d" false (Prompt.new (cfgE 0))).2 = false :=
  ⟨rfl, by decide,
   (prompt_gated_trigger_noop (cfgE 0) "d" (Prompt.new (cfgE 0)) rfl
     (by decide)).1⟩
